import Mathlib

/-!
Verification development for the declarative workflow engine of this
repository: a shallow embedding of the orchestrator (`uygulama.py`),
the rule engine, the profile manager, the session manager
(`session_manager.py`), the versioned artifact store
(`version_control.py`), the run-state shrink guard (`uretim_motoru.py`),
the knowledge ledger (`knowledge_manager.py`) and the production engine
step loop (`uretim_scripti.py`), together with theorems settling the
specification claims about them.

Machine integers are modelled as `Nat`/`Int`, Python floats appearing in
size/time comparisons as `Rat` (the concrete thresholds involved are
exactly representable and far from rounding boundaries), JSON documents
as the inductive `JVal`, and Python dictionaries as insertion-ordered
association lists.
-/

namespace Json2Proj

/-- JSON-like value, the data JSON documents, contexts, facts and step
outputs range over (the values produced by Python's `json.load`). -/
inductive JVal where
  | null : JVal
  | bool : Bool → JVal
  | num : ℚ → JVal
  | str : String → JVal
  | arr : List JVal → JVal
  | obj : List (String × JVal) → JVal
deriving Repr

/-- First-match lookup in a string-keyed association list; models
Python `dict` reads (dictionaries produced by `json.load` carry no
duplicate keys, so first-match agrees with the dictionary). -/
def lookupA {α : Type} : List (String × α) → String → Option α
  | [], _ => none
  | (k', v) :: rest, k => if k' = k then some v else lookupA rest k

/-- Numeric view used by Python's comparison operators: `True`/`False`
compare as the integers 1/0, so booleans and numbers live in one
numeric tower. -/
def toQNum : JVal → Option ℚ
  | .num q => some q
  | .bool b => some (if b then 1 else 0)
  | _ => none

mutual
/-- Python `==` on JSON values: numeric tower compared numerically,
`None == None` is `True`, strings/lists/dicts structurally, any
cross-type comparison is `False` (never raises). -/
def pyEq : JVal → JVal → Bool
  | a, b =>
    match toQNum a, toQNum b with
    | some x, some y => decide (x = y)
    | _, _ =>
      match a, b with
      | .null, .null => true
      | .str s, .str t => s = t
      | .arr xs, .arr ys => pyEqList xs ys
      | .obj fs, .obj gs => decide (fs.length = gs.length) && pyEqFields fs gs
      | _, _ => false

/-- Elementwise Python `==` on lists. -/
def pyEqList : List JVal → List JVal → Bool
  | [], [] => true
  | x :: xs, y :: ys => pyEq x y && pyEqList xs ys
  | _, _ => false

/-- Every binding of the first dict is present (under `==`) in the
second; combined with equal lengths this is Python dict equality for
duplicate-free key lists. -/
def pyEqFields : List (String × JVal) → List (String × JVal) → Bool
  | [], _ => true
  | (k, v) :: rest, gs =>
    (match lookupA gs k with
     | some w => pyEq v w
     | none => false) && pyEqFields rest gs
end

mutual
/-- Python `<` on JSON values: `some b` is the boolean outcome, `none`
models a raised `TypeError` (mixed non-numeric types, `None`, dicts). -/
def pyLt : JVal → JVal → Option Bool
  | a, b =>
    match toQNum a, toQNum b with
    | some x, some y => some (decide (x < y))
    | _, _ =>
      match a, b with
      | .str s, .str t => some (decide (s < t))
      | .arr xs, .arr ys => pyLtList xs ys
      | _, _ => none

/-- Python's lexicographic `<` on lists: skip `==` elements, then
compare the first differing pair (which may itself raise). -/
def pyLtList : List JVal → List JVal → Option Bool
  | [], [] => some false
  | [], _ :: _ => some true
  | _ :: _, [] => some false
  | x :: xs, y :: ys => if pyEq x y then pyLtList xs ys else pyLt x y
end

/-- The shared context: an insertion-ordered mapping of context keys to
step outputs (`self.context` of the orchestrator). -/
abbrev Ctx := List (String × JVal)

-- ### RuleEngine (`uygulama.py`, `RuleEngine.evaluate`)

/-- One rule condition as read off the ruleset JSON: the code accesses
`condition.get("fact")`, `condition.get("operator")`,
`condition.get("value")`, each of which may be absent (`None`). -/
structure Condition where
  fact : Option String
  op : Option String
  value : JVal

/-- `facts.get(fact_name)`: a missing fact (or a missing `fact` field)
reads as Python `None`. -/
def factsGet (facts : Ctx) (name : Option String) : JVal :=
  match name with
  | some n => (lookupA facts n).getD .null
  | none => .null

/-- One condition of `RuleEngine.evaluate`: the operator must be one of
`equal`/`greaterThan`/`lessThan` (anything else fails the ruleset), and
a `TypeError`/`ValueError` from the comparison (`pyLt = none`) is
caught and fails the ruleset. -/
def condPasses (facts : Ctx) (c : Condition) : Bool :=
  match c.op with
  | some "equal" => pyEq (factsGet facts c.fact) c.value
  | some "greaterThan" => (pyLt c.value (factsGet facts c.fact)).getD false
  | some "lessThan" => (pyLt (factsGet facts c.fact) c.value).getD false
  | _ => false

/-- `RuleEngine.evaluate(ruleset_name, facts)`: falsy name → `False`;
unknown ruleset → `False`; empty condition list → `True`; otherwise the
conjunction of the conditions. A ruleset is modelled by its condition
list (`logic.conditions.all` in the JSON). -/
def evaluate (rulesets : List (String × List Condition)) (name : String)
    (facts : Ctx) : Bool :=
  if name = "" then false
  else
    match lookupA rulesets name with
    | none => false
    | some conds => conds.all (condPasses facts)

-- ### ProfileManager (`uygulama.py`, `ProfileManager.get_merged_profile`)

/-- The profile table from `csv_profiles.json`: named JSON objects. -/
abbrev Profiles := List (String × List (String × JVal))

/-- Python `{**base, **child}`: base's keys in base order with child's
values winning, then child-only keys in child order. -/
def pyDictMerge (base child : List (String × JVal)) :
    List (String × JVal) :=
  base.map (fun kv => (kv.1, (lookupA child kv.1).getD kv.2)) ++
    child.filter (fun kv => (lookupA base kv.1).isNone)

/-- `ProfileManager.get_merged_profile(name)`: unknown name → `None`;
a truthy `inherits` naming an existing profile → `{**base, **profile}`
(note the child's own `inherits` binding is carried into the result);
otherwise the profile itself. -/
def getMergedProfile (profiles : Profiles) (name : String) :
    Option (List (String × JVal)) :=
  match lookupA profiles name with
  | none => none
  | some profile =>
    match lookupA profile "inherits" with
    | some (.str b) =>
      if b ≠ "" then
        match lookupA profiles b with
        | some base => some (pyDictMerge base profile)
        | none => some profile
      else some profile
    | _ => some profile

/-- The profile table of the spec's inheritance example. -/
def demoProfiles : Profiles :=
  [("base", [("a", .num 1), ("b", .num 2)]),
   ("child", [("inherits", .str "base"), ("b", .num 3)])]

-- ### SessionManager (`session_manager.py`)

/-- `SessionManager.check_status`: elapsed wall-clock time against
`timeout_seconds` first, then `update_counter` against `max_updates`;
both trips are strict `>` comparisons. Only the status string of the
returned `(status, message)` pair is modelled; the orchestrator
branches on the status alone. -/
def checkStatus (elapsed timeout : ℚ) (counter : ℕ) (maxUpdates : ℤ) :
    String :=
  if elapsed > timeout then "TIMEOUT_REACHED"
  else if (counter : ℤ) > maxUpdates then "MAX_UPDATES_REACHED"
  else "STATUS_OK"

-- ### WorkflowOrchestrator (`uygulama.py`)

/-- Orchestrator run flag (`self.state`). -/
inductive OState where
  | idle : OState
  | working : OState
deriving DecidableEq, Repr

/-- A step handler (`module_instance.execute(resolved_inputs,
self.context, self.db_manager)`). The handler receives the
orchestrator's context dictionary itself — a live handle, not a copy —
so it returns both its outcome (`Except.error` models a raised
exception) and the context as it leaves it. -/
abbrev Handler := JVal → Ctx → (Except Unit JVal) × Ctx

/-- One workflow step as consumed by `WorkflowOrchestrator.run`:
`step["module"]` is read unconditionally, `step.get("rs",
{}).get("ruleset_name")`, `step.get("i", {})`, `step.get("o",
{}).get("contract")` and `.get("context_key")` may be absent. -/
structure Step where
  id : String
  rulesetName : Option String
  module : String
  inputs : JVal
  contract : Option String
  contextKey : Option String

/-- A loaded workflow configuration: `workflow_id` and the `steps`
array. -/
structure ConfigData where
  workflowId : Option String
  steps : List Step

/-- The argument of `run(config)`: a file path, a non-empty dictionary,
an empty (falsy) dictionary, or anything else. -/
inductive ConfigInput where
  | path : String → ConfigInput
  | dict : ConfigData → ConfigInput
  | emptyDict : ConfigInput
  | invalid : ConfigInput

/-- The orchestrator's collaborators and policy, fixed at construction:
execution policy (`orchestrator_policy.json`), rulesets
(`rule_definitions.json`), profiles (`csv_profiles.json`), data
contracts (each contract modelled by the predicate its jsonschema
validation computes; `validateContract` turns an unknown name into
`False` as `validate_data_contract` does), the loadable handler modules
(`load_module`, `None` on failure), the loadable JSON files
(`load_json`, `none` covering both a read failure and a falsy
document), the optional workflow schema check (`none` when
`workflow_schema_v2.json` is falsy, in which case validation is
skipped), and the session policy together with the elapsed wall-clock
time, held fixed across the run. -/
structure Env where
  stopOnError : Bool
  stopOnContractViolation : Bool
  rulesets : List (String × List Condition)
  profiles : Profiles
  contracts : List (String × (JVal → Bool))
  modules : String → Option Handler
  files : String → Option ConfigData
  schemaCheck : Option (ConfigData → Bool)
  elapsed : ℚ
  timeout : ℚ
  maxUpdates : ℤ

/-- `validate_data_contract`: unknown contract name → `False`,
otherwise the schema check. -/
def validateContract (env : Env) (name : String) (data : JVal) : Bool :=
  match lookupA env.contracts name with
  | none => false
  | some check => check data

/-- Dotted-path walk of `resolve_inputs`'s `$ref` branch: `val =
context; for part in ref_path.split('.')[1:]: val = val[part]`. A
`KeyError`/`TypeError` (missing key, non-dict indexed by a string)
yields `none`, which the caller turns into `None`. -/
def refGet : JVal → List String → Option JVal
  | v, [] => some v
  | .obj fs, k :: ks =>
    match lookupA fs k with
    | some v => refGet v ks
    | none => none
  | _, _ :: _ => none

mutual
/-- `resolve_inputs(inputs, context)`: a dict bearing `$ref` resolves
the dotted path against the context (soft-failing to `None`), a dict
bearing `$profile` resolves to the merged profile (`None` for an
unknown profile), other dicts and lists are walked recursively, leaves
pass through. A non-string `$ref`/`$profile` payload is modelled as
resolving to `None`. -/
def resolveInputs (profiles : Profiles) (ctx : Ctx) : JVal → JVal
  | .obj fields =>
    match lookupA fields "$ref" with
    | some (.str p) => (refGet (.obj ctx) ((p.splitOn ".").drop 1)).getD .null
    | some _ => .null
    | none =>
      match lookupA fields "$profile" with
      | some (.str name) =>
        match getMergedProfile profiles name with
        | some d => .obj d
        | none => .null
      | some _ => .null
      | none => .obj (resolveFields profiles ctx fields)
  | .arr xs => .arr (resolveList profiles ctx xs)
  | v => v

/-- Fieldwise resolution of a plain dict. -/
def resolveFields (profiles : Profiles) (ctx : Ctx) :
    List (String × JVal) → List (String × JVal)
  | [] => []
  | (k, v) :: rest =>
    (k, resolveInputs profiles ctx v) :: resolveFields profiles ctx rest

/-- Elementwise resolution of a list. -/
def resolveList (profiles : Profiles) (ctx : Ctx) :
    List JVal → List JVal
  | [] => []
  | v :: rest => resolveInputs profiles ctx v :: resolveList profiles ctx rest
end

/-- Python dict assignment `ctx[k] = v`: replaces the value in place
when the key exists (insertion order kept), appends otherwise. -/
def ctxSet (ctx : Ctx) (k : String) (v : JVal) : Ctx :=
  if (lookupA ctx k).isSome then
    ctx.map (fun kv => if kv.1 = k then (kv.1, v) else kv)
  else ctx ++ [(k, v)]

/-- The step loop of `WorkflowOrchestrator.run` (lines 173–217): per
step, session check (non-OK breaks), rule gate (a truthy ruleset name
whose ruleset evaluates false skips the step), module load (failure
applies `stop_on_error`), input resolution, handler dispatch on the
live context (a raise applies `stop_on_error`; mutations the handler
made survive either way), contract validation (failure applies
`stop_on_contract_violation`), merge of the output under a truthy
`context_key`, and `log_update`. Returns the final context and update
counter. -/
def runSteps (env : Env) : List Step → Ctx → ℕ → Ctx × ℕ
  | [], ctx, counter => (ctx, counter)
  | step :: rest, ctx, counter =>
    if checkStatus env.elapsed env.timeout counter env.maxUpdates ≠
        "STATUS_OK" then (ctx, counter)
    else
      let gateFails :=
        match step.rulesetName with
        | some n => n ≠ "" && !(evaluate env.rulesets n ctx)
        | none => false
      if gateFails then runSteps env rest ctx counter
      else
        match env.modules step.module with
        | none =>
          if env.stopOnError then (ctx, counter)
          else runSteps env rest ctx counter
        | some h =>
          let resolved := resolveInputs env.profiles ctx step.inputs
          match h resolved ctx with
          | (.error _, ctx') =>
            if env.stopOnError then (ctx', counter)
            else runSteps env rest ctx' counter
          | (.ok out, ctx') =>
            let contractFails :=
              match step.contract with
              | some cn => cn ≠ "" && !(validateContract env cn out)
              | none => false
            if contractFails then
              if env.stopOnContractViolation then (ctx', counter)
              else runSteps env rest ctx' counter
            else
              let ctx'' :=
                match step.contextKey with
                | some k => if k ≠ "" then ctxSet ctx' k out else ctx'
                | none => ctx'
              runSteps env rest ctx'' (counter + 1)

/-- The orchestrator instance state `run` touches: the IDLE/WORKING
flag, the shared context, and the session's update counter. -/
structure RunState where
  state : OState
  context : Ctx
  counter : ℕ

/-- Result of a `run(config)` call: the flag and context afterwards,
the update counter, whether the call was accepted (a call observed
while WORKING is rejected immediately), and the successive assignments
made to `self.state` during the call. -/
structure RunResult where
  finalState : OState
  context : Ctx
  counter : ℕ
  accepted : Bool
  stateTrace : List OState

/-- The body of `run` inside the `try` (after the WORKING transition):
schema validation when a workflow schema is loaded, then the step loop.
Early `return`s leave context and counter untouched. -/
def runBody (env : Env) (c : ConfigData) (st : RunState) : Ctx × ℕ :=
  match env.schemaCheck with
  | some check =>
    if check c then runSteps env c.steps st.context st.counter
    else (st.context, st.counter)
  | none => runSteps env c.steps st.context st.counter

/-- `WorkflowOrchestrator.run(config)`: a call observed while WORKING
is rejected with nothing changed; otherwise the flag is set to WORKING,
the body runs (every early `return`, `break` and normal completion
included), and the `finally` block restores IDLE exactly once. -/
def run (env : Env) (st : RunState) (cfg : ConfigInput) : RunResult :=
  if st.state = .working then
    ⟨.working, st.context, st.counter, false, []⟩
  else
    let body : Ctx × ℕ :=
      match cfg with
      | .invalid => (st.context, st.counter)
      | .emptyDict => (st.context, st.counter)
      | .path p =>
        match env.files p with
        | none => (st.context, st.counter)
        | some c => runBody env c st
      | .dict c => runBody env c st
    ⟨.idle, body.1, body.2, true, [.working, .idle]⟩

-- ### VersionControl (`version_control.py`)

/-- Decimal digit character for `d < 10` (used when printing a version
number into a filename, as Python's `str(n)` does). -/
def digitChar (d : ℕ) : Char :=
  match d with
  | 0 => '0' | 1 => '1' | 2 => '2' | 3 => '3' | 4 => '4'
  | 5 => '5' | 6 => '6' | 7 => '7' | 8 => '8' | _ => '9'

/-- The decimal digit string of `n`, most significant first (Python
`str(n)` for a non-negative integer). -/
def natDigits (n : ℕ) : List Char :=
  if n = 0 then ['0'] else ((Nat.digits 10 n).reverse.map digitChar)

/-- Python `int(s)` on a digit string: base-10 left fold. -/
def natOfDigits (ds : List Char) : ℕ :=
  ds.foldl (fun acc c => 10 * acc + (c.toNat - 48)) 0

/-- The digit-run split of a regex `(\d+)` match: maximal digit run
first, remainder second. -/
def takeDigits (cs : List Char) : List Char × List Char :=
  match cs with
  | [] => ([], [])
  | c :: rest =>
    if c.isDigit then
      let (ds, tl) := takeDigits rest
      (c :: ds, tl)
    else ([], cs)

/-- Scan of the regex tail `.*?_v(\d+).*?<ext>$` over the characters
after the base name: the lazy gap finds the leftmost `_v` followed by
at least one digit, `(\d+)` greedily takes the digit run, and the rest
of the name must end with `ext`. (Extensions beginning with a digit,
which would let the engine backtrack into the capture, are not used by
the code: extensions come from `os.path.splitext` and start with a
dot.) -/
def scanVersion (ext : List Char) : List Char → Option ℕ
  | [] => none
  | '_' :: 'v' :: rest =>
    match takeDigits rest with
    | (d :: ds, tl) =>
      if ext.isSuffixOf tl then some (natOfDigits (d :: ds))
      else scanVersion ext ('v' :: rest)
    | ([], _) => scanVersion ext ('v' :: rest)
  | _ :: cs => scanVersion ext cs

/-- `re.match(f"^{re.escape(base_name)}.*?_v(\\d+).*?{re.escape(ext)}$",
f)` with the capture converted by `int`, as `_get_next_version` applies
it to each directory entry. -/
def extractVersion (baseName ext : String) (f : String) : Option ℕ :=
  if baseName.toList.isPrefixOf f.toList then
    scanVersion ext.toList (f.toList.drop baseName.toList.length)
  else none

/-- The `max_version` fold of `VersionControl._get_next_version`:
maximum captured version over the directory listing, `0` when nothing
matches. -/
def maxVersion (baseName ext : String) (files : List String) : ℕ :=
  files.foldl
    (fun mx f =>
      match extractVersion baseName ext f with
      | some v => max mx v
      | none => mx) 0

/-- `_get_next_version`: `max_version + 1`. -/
def getNextVersion (baseName ext : String) (files : List String) : ℕ :=
  maxVersion baseName ext files + 1

/-- The final artifact filename `save_new_version` builds under the
default pattern `default_v{N}_{sha12}.json` (used when the
configuration carries no pattern; it contains no `strftime` directives,
so the time-formatting pass leaves it unchanged):
`f"{base_name}_{filename_part}{ext}"` with
`filename_part = "default_v" + str(N) + "_" + sha12`. -/
def genFilename (baseName ext sha12 : String) (n : ℕ) : String :=
  baseName ++ "_default_v" ++ ⟨natDigits n⟩ ++ "_" ++ sha12 ++ ext

/-- Result of one `save_new_version` call: the filename and version it
returns, and the versions directory afterwards. -/
structure SaveResult where
  filename : String
  version : ℕ
  files : List String

/-- `VersionControl.save_new_version` over the versions directory,
modelled as the list of filenames it contains: scan for the next
version, build the new filename, atomically move the payload there (a
fresh entry in the listing; the temp file lives in a separate `tmp`
directory and never appears here). `sha12` is the first 12 hex
characters of the payload's SHA-256; the scan never inspects payload
bytes, so byte-identical payloads are versioned like any others. -/
def saveNewVersion (baseName ext sha12 : String) (files : List String) :
    SaveResult :=
  let n := getNextVersion baseName ext files
  let f := genFilename baseName ext sha12 n
  ⟨f, n, files ++ [f]⟩

/-- N consecutive `save_new_version` calls for one base path, one call
per listed `sha12`; returns the version numbers handed out in order and
the final directory listing. -/
def saveSeq (baseName ext : String) : List String → List String →
    List ℕ × List String
  | [], files => ([], files)
  | sha :: shas, files =>
    let r := saveNewVersion baseName ext sha files
    let (vs, fs) := saveSeq baseName ext shas r.files
    (r.version :: vs, fs)

/-- The filenames `saveSeq` generates starting from version `v`. -/
def genFrom (baseName ext : String) : ℕ → List String → List String
  | _, [] => []
  | v, sha :: shas =>
    genFilename baseName ext sha v :: genFrom baseName ext (v + 1) shas

-- ### Run-state shrink guard (`uretim_motoru.py`, `manage_state`)

/-- The `pl.security.size_shrink_guard` configuration block:
`threshold_bytes` (default 4096), `threshold_percent` (default 0.005),
and the optional `on_violation` directive. -/
structure GuardRules where
  thresholdBytes : ℤ
  thresholdPercent : ℚ
  onViolation : Option String

/-- The write mode of `manage_state`, as the decision whether the state
file is (over)written: `guard` is `none` when the configuration block
is absent/empty, `oldSize` is `none` when no state file exists. The
guard only fires on an existing non-empty file whose size shrinks
strictly beyond the byte threshold OR strictly beyond the percent
threshold, and even then it cancels the write only when `on_violation`
is `"block_and_request_approval"`; every other configuration merely
prints a warning and writes anyway. -/
def manageStateWrite (guard : Option GuardRules) (oldSize : Option ℕ)
    (newSize : ℕ) : Bool :=
  match guard, oldSize with
  | some g, some old =>
    if 0 < old then
      let diff : ℤ := (old : ℤ) - (newSize : ℤ)
      if diff > g.thresholdBytes ∨
          (diff : ℚ) / (old : ℚ) > g.thresholdPercent then
        if g.onViolation = some "block_and_request_approval" then false
        else true
      else true
    else true
  | _, _ => true

-- ### KnowledgeManager (`knowledge_manager.py`)

/-- One ledger record of `learned_insights`; `timestamp` is kept as a
JSON value because the expiry check must cope with records whose
timestamp is not a string. -/
structure Insight where
  key : String
  value : JVal
  sourceId : String
  confidence : ℚ
  timestamp : JVal

/-- Days in a month under the Gregorian rules `datetime` enforces. -/
def daysInMonth (y m : ℕ) : ℕ :=
  if m = 2 then
    if y % 4 = 0 ∧ (y % 100 ≠ 0 ∨ y % 400 = 0) then 29 else 28
  else if m = 4 ∨ m = 6 ∨ m = 9 ∨ m = 11 then 30
  else 31

/-- Days since 1970-01-01 of a civil date (the standard era-based
count `datetime` arithmetic reduces to). -/
def daysFromCivil (y m d : ℤ) : ℤ :=
  let y' := if m ≤ 2 then y - 1 else y
  let era := (if y' ≥ 0 then y' else y' - 399) / 400
  let yoe := y' - era * 400
  let mp := (m + 9) % 12
  let doy := (153 * mp + 2) / 5 + d - 1
  let doe := yoe * 365 + yoe / 4 - yoe / 100 + doy
  era * 146097 + doe - 719468

/-- Character-level digit check over a string slice. -/
def allDigits (cs : List Char) : Bool := cs.all Char.isDigit

/-- Python `str.replace('Z', '+00:00')` at character level. -/
def replaceZ : List Char → List Char
  | [] => []
  | c :: cs =>
    if c = 'Z' then '+' :: '0' :: '0' :: ':' :: '0' :: '0' :: replaceZ cs
    else c :: replaceZ cs

/-- Model of `datetime.fromisoformat` on the canonical aware UTC shapes
the ledger produces, applied after `_is_expired`'s
`.replace('Z', '+00:00')`: `YYYY-MM-DDTHH:MM:SS+00:00`, optionally with
a 6-digit fraction before the offset. The result is the POSIX
timestamp in seconds as a rational. Any other string — and `datetime`'s
own range checks on month, day, hour, minute and second — yields
`none`, modelling a raised `ValueError`. -/
def parseIsoUtc (cs : List Char) : Option ℚ :=
  let core := cs.take 19
  let tail := cs.drop 19
  let sepAt (j : ℕ) (c : Char) : Bool :=
    ((core.drop j).take 1).all (· = c)
  let okCore :=
    (core.length == 19) &&
    allDigits (core.take 4) && sepAt 4 '-' &&
    allDigits ((core.drop 5).take 2) && sepAt 7 '-' &&
    allDigits ((core.drop 8).take 2) && sepAt 10 'T' &&
    allDigits ((core.drop 11).take 2) && sepAt 13 ':' &&
    allDigits ((core.drop 14).take 2) && sepAt 16 ':' &&
    allDigits ((core.drop 17).take 2)
  if !okCore then none
  else
    let fracOpt : Option ℚ :=
      if tail = "+00:00".toList then some 0
      else if tail.length = 13 && tail.take 1 = ['.'] &&
          allDigits (tail.drop 1 |>.take 6) &&
          tail.drop 7 = "+00:00".toList then
        some ((natOfDigits (tail.drop 1 |>.take 6) : ℚ) / 1000000)
      else none
    match fracOpt with
    | none => none
    | some frac =>
      let y := natOfDigits (core.take 4)
      let mo := natOfDigits (core.drop 5 |>.take 2)
      let d := natOfDigits (core.drop 8 |>.take 2)
      let h := natOfDigits (core.drop 11 |>.take 2)
      let mi := natOfDigits (core.drop 14 |>.take 2)
      let sec := natOfDigits (core.drop 17 |>.take 2)
      if 1 ≤ y ∧ 1 ≤ mo ∧ mo ≤ 12 ∧ 1 ≤ d ∧ d ≤ daysInMonth y mo ∧
          h ≤ 23 ∧ mi ≤ 59 ∧ sec ≤ 59 then
        some ((daysFromCivil y mo d * 86400 + h * 3600 + mi * 60 + sec : ℤ)
          + frac)
      else none

/-- The timestamp parse attempted by `_is_expired`: the `.replace('Z',
'+00:00')` call raises `TypeError` on a non-string (`none` here), and
the parse itself may raise `ValueError` (`none` as well). -/
def parseTs : JVal → Option ℚ
  | .str s => parseIsoUtc (replaceZ s.toList)
  | _ => none

/-- `KnowledgeManager._is_expired`: age strictly beyond the TTL, with
any `ValueError`/`TypeError` from parsing caught and answered as "not
expired". `now` and `ttl` are in seconds. -/
def isExpired (now ttl : ℚ) (ts : JVal) : Bool :=
  match parseTs ts with
  | some t => now - t > ttl
  | none => false

/-- Stable insertion step: place `x` before the first element `y` with
`le x y` false... kept exactly stable so the sort below agrees with
Python's stable `sorted`. -/
def insertBy {α : Type} (le : α → α → Bool) (x : α) :
    List α → List α
  | [] => [x]
  | y :: ys => if le x y then x :: y :: ys else y :: insertBy le x ys

/-- Stable sort by `le` (insertion sort); for a total preorder this
agrees elementwise with Python's stable `sorted`. -/
def sortStable {α : Type} (le : α → α → Bool) : List α → List α
  | [] => []
  | x :: xs => insertBy le x (sortStable le xs)

/-- The descending comparator `sorted(key=lambda x:
x.get("timestamp"), reverse=True)` uses on the ledger: string
timestamps compare lexicographically; the orderings Python would raise
`TypeError` on never reorder here. -/
def tsDescLe (a b : Insight) : Bool :=
  match a.timestamp, b.timestamp with
  | .str s, .str t => !(decide (s < t))
  | _, _ => true

/-- `KnowledgeManager.get_latest_insight(key, ignore_expired)`: filter
the ledger to the key, sort by timestamp descending, return the first
record that is not (being filtered and expired); `none` when nothing
qualifies. -/
def getLatestInsight (now ttl : ℚ) (insights : List Insight)
    (key : String) (ignoreExpired : Bool) : Option Insight :=
  let relevant :=
    sortStable tsDescLe (insights.filter (fun i => i.key == key))
  relevant.find? (fun i => !(ignoreExpired && isExpired now ttl i.timestamp))

-- ### Production engine step loop (`uretim_scripti.py`, `is_akisi_motoru`)

/-- The per-step `on_error` block read from `config.run.s[step_id]`:
`pol` (checked against `"fail-soft"` first) and `fallback_next`. -/
structure OnErr where
  pol : Option String
  fallbackNext : Option String

/-- A step of `run.steps_list_snapshot`, reduced to its id; the step
bodies (Gemini calls, file waits, user input) are external collaborators
modelled by the behaviour argument below. -/
structure MStep where
  id : String

/-- Outcome of one iteration of the engine's `while i <
len(adim_listesi)` loop: move to index `i` with data `d`, finish (index
past the end), halt with the fallback-target configuration error, or
halt under the global `stop_err` policy. -/
inductive MotorOut (D : Type) where
  | goto : ℕ → D → MotorOut D
  | done : D → MotorOut D
  | haltCfg : D → MotorOut D
  | haltErr : D → MotorOut D
deriving Repr

/-- Python `list.index` as the engine calls it on the step-id list:
first index of the value, `none` for the `ValueError` case. -/
def pyIndexOf (xs : List String) (x : String) : Option ℕ :=
  xs.findIdx? (· == x)

/-- One iteration of `is_akisi_motoru`'s loop. `behav id d` is the
step body (the whole `try` block up to the state write): `.ok d'` is a
completed step (then `i += 1`), `.error ()` a raised exception. The
`except` branch resolves the step's `on_error` exactly as the source
does: `pol == "fail-soft"` advances to the next step; otherwise a
`fallback_next` target is looked up in the declared id list, jumping
there when found and halting with a configuration error when absent;
with no step policy the global `stop_err` flag decides between halting
and retrying the same index (the loop body ends without advancing
`i`). A failed precondition skips the step. -/
def motorStep {D : Type} (steps : List MStep) (onErrOf : String → OnErr)
    (behav : String → D → Except Unit D) (precond : String → D → Bool)
    (stopErr : Bool) (i : ℕ) (d : D) : MotorOut D :=
  match steps[i]? with
  | none => .done d
  | some s =>
    if !precond s.id d then .goto (i + 1) d
    else
      match behav s.id d with
      | .ok d' => .goto (i + 1) d'
      | .error _ =>
        let he := onErrOf s.id
        if he.pol = some "fail-soft" then .goto (i + 1) d
        else
          match he.fallbackNext with
          | some tgt =>
            match pyIndexOf (steps.map MStep.id) tgt with
            | some j => .goto j d
            | none => .haltCfg d
          | none => if stopErr then .haltErr d else .goto i d

-- ### Concrete demonstration data

/-- Baseline orchestrator environment: default execution policy
(`stop_on_error` and `stop_on_contract_violation` true), empty rule /
profile / contract tables, no loadable modules or files, no workflow
schema, a fresh session (0 s elapsed against the default 3600 s
timeout, default 1000 max updates). -/
def envBase : Env where
  stopOnError := true
  stopOnContractViolation := true
  rulesets := []
  profiles := []
  contracts := []
  modules := fun _ => none
  files := fun _ => none
  schemaCheck := none
  elapsed := 0
  timeout := 3600
  maxUpdates := 1000

/-- Handler that succeeds with `None` and leaves the context alone. -/
def okHandler : Handler := fun _ ctx => (.ok .null, ctx)

/-- Handler producing a fixed string output. -/
def writerHandler : Handler := fun _ ctx => (.ok (.str "v1"), ctx)

/-- Handler whose output is (a copy of) the context it was handed —
used to observe exactly what a step's handler sees. -/
def echoHandler : Handler := fun _ ctx => (.ok (.obj ctx), ctx)

/-- Handler that writes a key through the context handle it received
before returning its regular output. -/
def evilHandler : Handler :=
  fun _ ctx => (.ok (.str "out"), ctxSet ctx "evil" (.str "mutated"))

/-- Module table for the demonstration environment. -/
def demoModules : String → Option Handler := fun m =>
  if m = "ok.py" then some okHandler
  else if m = "writer.py" then some writerHandler
  else if m = "echo.py" then some echoHandler
  else none

/-- Demonstration environment with the three named modules loadable. -/
def envDemo : Env := { envBase with modules := demoModules }

/-- Environment whose single loadable module `m.py` is the given
handler. -/
def envOf (h : Handler) : Env :=
  { envBase with modules := fun m => if m = "m.py" then some h else none }

/-- Environment for session-budget runs: the all-ok module, elapsed
time `e` against timeout `t`, and `max_updates = N`. -/
def envTriv (e t : ℚ) (N : ℕ) : Env :=
  { envDemo with elapsed := e, timeout := t, maxUpdates := (N : ℤ) }

/-- One-step workflow: the named module, no rule gate, no contract,
output merged under `key`. -/
def cfgOf (module key : String) : ConfigData :=
  ⟨none, [⟨"s", none, module, .null, none, some key⟩]⟩

/-- Step with no output key, used for pure step counting. -/
def stepOk : Step := ⟨"s", none, "ok.py", .null, none, none⟩

/-- Workflow of `M` identical trivially-succeeding steps. -/
def cfgTriv (M : ℕ) : ConfigData := ⟨none, List.replicate M stepOk⟩

/-- Rulesets for the rule-engine demonstrations. -/
def demoRulesets : List (String × List Condition) :=
  [("R", [⟨some "x", some "equal", JVal.null⟩]),
   ("R2", [⟨some "y", some "greaterThan", JVal.num 10⟩])]

/-- Ledger record whose timestamp is not a parseable ISO-8601 string. -/
def demoInsight : Insight := ⟨"k", .null, "src", 1, .str "not-a-date"⟩

/-- Step list for the production-engine demonstration. -/
def motorDemoSteps : List MStep := [⟨"s1"⟩, ⟨"s2"⟩, ⟨"s3"⟩]

/-- Per-step error policy: `s1` falls back to `s3`, `s2` falls back to
an id absent from the step list. -/
def motorDemoOnErr : String → OnErr := fun i =>
  if i = "s1" then ⟨none, some "s3"⟩
  else if i = "s2" then ⟨none, some "zzz"⟩
  else ⟨none, none⟩

/-- Step behaviour that always raises. -/
def motorDemoBehav : String → ℕ → Except Unit ℕ := fun _ _ => .error ()

/-- Preconditions that always pass. -/
def motorDemoPre : String → ℕ → Bool := fun _ _ => true

-- ## Helper lemmas

/-- Lookup of an association-list append: the left list is consulted
first. -/
theorem lookupA_append {α : Type} (l1 l2 : List (String × α)) (k : String) :
    lookupA (l1 ++ l2) k =
      match lookupA l1 k with
      | some v => some v
      | none => lookupA l2 k := by
  induction l1 with
  | nil => simp [lookupA]
  | cons hd tl ih =>
    by_cases h : hd.1 = k <;> simp [lookupA, h, ih]

/-- Lookup through the overridden-base half of a Python dict merge. -/
theorem lookupA_map_override (base child : List (String × JVal))
    (k : String) :
    lookupA (base.map (fun kv => (kv.1, (lookupA child kv.1).getD kv.2))) k =
      (lookupA base k).map (fun v => (lookupA child k).getD v) := by
  induction base with
  | nil => simp [lookupA]
  | cons hd tl ih =>
    by_cases h : hd.1 = k
    · subst h; simp [lookupA, ih]
    · simp [lookupA, h, ih]

/-- Lookup through the child-only half of a Python dict merge. -/
theorem lookupA_filter_notin (base child : List (String × JVal))
    (k : String) :
    lookupA (child.filter (fun kv => (lookupA base kv.1).isNone)) k =
      if (lookupA base k).isNone then lookupA child k else none := by
  induction child with
  | nil => simp [lookupA]
  | cons hd tl ih =>
    by_cases h : hd.1 = k
    · subst h
      by_cases hb : (lookupA base hd.1).isNone <;>
        simp [List.filter, lookupA, hb, ih]
    · by_cases hb : (lookupA base hd.1).isNone <;>
        simp [List.filter, lookupA, h, hb, ih]

/-- Characterization of `{**base, **child}`: the child's binding wins,
the base's binding is used otherwise. -/
theorem lookupA_pyDictMerge (base child : List (String × JVal))
    (k : String) :
    lookupA (pyDictMerge base child) k =
      match lookupA child k with
      | some v => some v
      | none => lookupA base k := by
  unfold pyDictMerge
  rw [lookupA_append, lookupA_map_override, lookupA_filter_notin]
  cases hc : lookupA child k <;> cases hb : lookupA base k <;>
    simp [hc, hb]

/-- In-place value replacement seen through lookup. -/
theorem lookupA_map_set (ctx : Ctx) (k : String) (v : JVal)
    (h : (lookupA ctx k).isSome = true) :
    lookupA (ctx.map (fun kv => if kv.1 = k then (kv.1, v) else kv)) k =
      some v := by
  induction ctx with
  | nil => simp [lookupA] at h
  | cons hd tl ih =>
    obtain ⟨k1, v1⟩ := hd
    simp only [List.map_cons]
    by_cases hk : k1 = k
    · subst hk
      rw [if_pos rfl]
      simp [lookupA]
    · rw [if_neg hk]
      simp [lookupA, hk] at h
      simp [lookupA, hk, ih h]

/-- Reading back the key just assigned by a Python dict assignment. -/
theorem lookupA_ctxSet (ctx : Ctx) (k : String) (v : JVal) :
    lookupA (ctxSet ctx k v) k = some v := by
  unfold ctxSet
  by_cases h : (lookupA ctx k).isSome
  · simp [h, lookupA_map_set ctx k v h]
  · have hc : lookupA ctx k = none := by
      cases hcc : lookupA ctx k with
      | some w => rw [hcc] at h; simp at h
      | none => rfl
    simp only [h, if_neg, Bool.false_eq_true, not_false_eq_true]
    rw [lookupA_append, hc]
    simp [lookupA]

-- ## Claim C3 — run-state shrink guard

/-- C3 counterexample. The claim states that a write shrinking the
run-state file beyond the thresholds "is rejected and the prior file's
bytes are left untouched (unless policy explicitly permits the
shrink)". With thresholds of 1 byte and 1% configured and no
`on_violation` directive, a write shrinking a 100-byte file to 50
bytes exceeds both thresholds, yet `manage_state` only prints a
warning and performs the write: the guard cancels a write solely when
`on_violation == "block_and_request_approval"`. -/
theorem c3_shrink_guard_counterexample :
    manageStateWrite (some ⟨1, 1 / 100, none⟩) (some 100) 50 = true := by
  norm_num [manageStateWrite]
  simp

/-- C3 amended: a write that shrinks an existing non-empty run-state
file by more than `threshold_bytes` or by more than
`threshold_percent` of the old size is rejected if and only if the
guard's `on_violation` directive is `"block_and_request_approval"`
(any other configuration only warns and writes); a write within both
thresholds — in particular any write that grows the file, for
non-negative thresholds — always proceeds. -/
theorem c3_shrink_guard (g : GuardRules) (old newSize : ℕ)
    (h : 0 < old) :
    ((old : ℤ) - (newSize : ℤ) ≤ g.thresholdBytes ∧
        (((old : ℤ) - (newSize : ℤ) : ℤ) : ℚ) / (old : ℚ) ≤
          g.thresholdPercent →
      manageStateWrite (some g) (some old) newSize = true) ∧
    ((old : ℤ) - (newSize : ℤ) > g.thresholdBytes ∨
        (((old : ℤ) - (newSize : ℤ) : ℤ) : ℚ) / (old : ℚ) >
          g.thresholdPercent →
      (manageStateWrite (some g) (some old) newSize = false ↔
        g.onViolation = some "block_and_request_approval")) ∧
    (0 ≤ g.thresholdBytes → 0 ≤ g.thresholdPercent → old ≤ newSize →
      manageStateWrite (some g) (some old) newSize = true) := by
  refine ⟨?_, ?_, ?_⟩
  · intro hsmall
    simp only [manageStateWrite, h, if_pos]
    rw [if_neg]
    push_neg
    exact ⟨hsmall.1, hsmall.2⟩
  · intro hover
    simp only [manageStateWrite, h, if_pos]
    rw [if_pos hover]
    constructor
    · intro hw
      by_contra hv
      rw [if_neg hv] at hw
      exact Bool.noConfusion hw
    · intro hv
      rw [if_pos hv]
  · intro hb hp hgrow
    simp only [manageStateWrite, h, if_pos]
    rw [if_neg]
    push_neg
    constructor
    · omega
    · calc (((old : ℤ) - (newSize : ℤ) : ℤ) : ℚ) / (old : ℚ)
          ≤ 0 := by
            apply div_nonpos_of_nonpos_of_nonneg
            · push_cast
              have : (old : ℚ) ≤ (newSize : ℚ) := by exact_mod_cast hgrow
              linarith
            · positivity
        _ ≤ g.thresholdPercent := hp

/-- C3 witness: a 100 → 50 byte shrink against thresholds of 4096
bytes / 0.5% with `on_violation = "block_and_request_approval"` is
rejected. -/
theorem c3_shrink_guard_witness :
    manageStateWrite
      (some ⟨4096, 1 / 200, some "block_and_request_approval"⟩)
      (some 100) 50 = false := by
  have h := c3_shrink_guard ⟨4096, 1 / 200, some "block_and_request_approval"⟩
    100 50 (by norm_num)
  exact (h.2.1 (by norm_num)).mpr rfl

-- ## Claim C4 — fallback error routing (`is_akisi_motoru`)

/-- C4: in the production engine's step loop, a step whose body raises
and whose configuration declares `on_error` with a `fallback_next`
target (and no overriding `pol: "fail-soft"`) moves the execution
pointer to the declared index of the target step — resuming there and
thereby skipping every step between the failing step and the target in
declared order — for either value of the global `stop_err` policy
(step-declared policy takes precedence); if the target id is absent
from the declared step list, the run halts with a configuration
error. -/
theorem c4_fallback_routing {D : Type} (steps : List MStep)
    (onErrOf : String → OnErr) (behav : String → D → Except Unit D)
    (precond : String → D → Bool) (stopErr : Bool) (i : ℕ) (s : MStep)
    (d : D) (tgt : String)
    (hs : steps[i]? = some s)
    (hpre : precond s.id d = true)
    (hb : behav s.id d = .error ())
    (hpol : (onErrOf s.id).pol ≠ some "fail-soft")
    (hfb : (onErrOf s.id).fallbackNext = some tgt) :
    (∀ j, pyIndexOf (steps.map MStep.id) tgt = some j →
      motorStep steps onErrOf behav precond stopErr i d = .goto j d) ∧
    (pyIndexOf (steps.map MStep.id) tgt = none →
      motorStep steps onErrOf behav precond stopErr i d = .haltCfg d) := by
  constructor
  · intro j hj
    simp [motorStep, hs, hpre, hb, hpol, hfb, hj]
  · intro hj
    simp [motorStep, hs, hpre, hb, hpol, hfb, hj]

/-- C4 witness: step `s1` (index 0) raises with fallback target `s3`;
execution resumes at index 2, skipping `s2`; step `s2` raises with a
fallback target absent from the list, halting with a configuration
error. Both hold with `stop_err = true`, showing the step policy
preempts the global one. -/
theorem c4_fallback_routing_witness :
    motorStep motorDemoSteps motorDemoOnErr motorDemoBehav motorDemoPre
      true 0 (5 : ℕ) = .goto 2 5 ∧
    motorStep motorDemoSteps motorDemoOnErr motorDemoBehav motorDemoPre
      true 1 (5 : ℕ) = .haltCfg 5 := by
  constructor
  · exact (c4_fallback_routing motorDemoSteps motorDemoOnErr motorDemoBehav
      motorDemoPre true 0 ⟨"s1"⟩ 5 "s3" rfl rfl rfl (by decide) rfl).1 2 rfl
  · exact (c4_fallback_routing motorDemoSteps motorDemoOnErr motorDemoBehav
      motorDemoPre true 1 ⟨"s2"⟩ 5 "zzz" rfl rfl rfl (by decide) rfl).2 rfl

-- ## Claim C7 — rule engine gating

/-- C7 counterexample. The claim states `RuleEngine.evaluate` "returns
false whenever any condition compares against a fact that is missing
from the facts mapping". With the fact `x` absent, `facts.get("x")`
yields `None`, and the condition `{fact: "x", operator: "equal",
value: null}` then compares `None == None`, which is `True`: the
ruleset evaluates to true, not false. -/
theorem c7_rule_engine_counterexample :
    evaluate demoRulesets "R" [] = true := by rfl

/-- C7 amended: `evaluate` is fail-closed for unknown ruleset names; a
known ruleset with an empty condition list is true; a `greaterThan` /
`lessThan` comparison whose operands Python cannot order (a missing
fact reads as `None`, and `None` or any type-incompatible pair raises
`TypeError`, caught and answered `False`) fails the whole ruleset.
However `equal` never raises: a missing fact is compared as `None`, so
an `equal` condition expecting `null` succeeds against a missing
fact (last conjunct), which is the one divergence from the claim. -/
theorem c7_rule_engine (rulesets : List (String × List Condition))
    (facts : Ctx) (name : String) :
    (lookupA rulesets name = none → evaluate rulesets name facts = false) ∧
    (∀ conds, lookupA rulesets name = some conds → name ≠ "" →
      conds = [] → evaluate rulesets name facts = true) ∧
    (∀ conds c, lookupA rulesets name = some conds → c ∈ conds →
      ((c.op = some "greaterThan" ∧
          pyLt c.value (factsGet facts c.fact) = none) ∨
        (c.op = some "lessThan" ∧
          pyLt (factsGet facts c.fact) c.value = none)) →
      evaluate rulesets name facts = false) ∧
    evaluate demoRulesets "R" [] = true := by
  refine ⟨?_, ?_, ?_, rfl⟩
  · intro hun
    by_cases hn : name = ""
    · simp [evaluate, hn]
    · simp [evaluate, hn, hun]
  · intro conds hlook hn he
    subst he
    simp [evaluate, hn, hlook]
  · intro conds c hlook hmem hbad
    by_cases hn : name = ""
    · simp [evaluate, hn]
    · have hc : condPasses facts c = false := by
        rcases hbad with ⟨h1, h2⟩ | ⟨h1, h2⟩ <;> simp [condPasses, h1, h2]
      simp only [evaluate, hn, if_neg, hlook]
      cases hall : conds.all (condPasses facts)
      · simp [hn]
      · exfalso
        have := List.all_eq_true.mp hall c hmem
        rw [hc] at this
        exact Bool.noConfusion this

/-- C7 witness: the ruleset `R2` requires `y > 10`; with `y` missing
the comparison raises in Python (caught), and the ruleset is false. -/
theorem c7_rule_engine_witness :
    evaluate demoRulesets "R2" [] = false :=
  (c7_rule_engine demoRulesets [] "R2").2.2.1
    [⟨some "y", some "greaterThan", JVal.num 10⟩]
    ⟨some "y", some "greaterThan", JVal.num 10⟩ rfl (by simp)
    (Or.inl ⟨rfl, rfl⟩)

-- ## Claim C8 — profile inheritance merge

/-- C8 counterexample. The claim states `get_merged_profile("child")`
for `base = {a:1, b:2}`, `child = {inherits:"base", b:3}` "returns
exactly {a:1, b:3} and nothing else". The code computes
`{**base, **profile}` with the child's own dict — `inherits` included —
so the result carries a third binding `inherits: "base"`. -/
theorem c8_merged_profile_counterexample :
    getMergedProfile demoProfiles "child" =
      some [("a", .num 1), ("b", .num 3), ("inherits", .str "base")] ∧
    (getMergedProfile demoProfiles "child").map
        (fun d => lookupA d "inherits") = some (some (.str "base")) := by
  exact ⟨rfl, rfl⟩

/-- C8 amended: for a profile whose truthy `inherits` names an existing
base profile, `get_merged_profile` returns `{**base, **profile}` — the
base shallow-overlaid by the child's own fields with the child winning
— in which the child's `inherits` binding itself is retained; on the
spec's example the result is `{a:1, b:3, inherits:"base"}`. -/
theorem c8_merged_profile (profiles : Profiles) (name b : String)
    (p base : List (String × JVal))
    (hp : lookupA profiles name = some p)
    (hi : lookupA p "inherits" = some (.str b))
    (hb : b ≠ "")
    (hbase : lookupA profiles b = some base) :
    getMergedProfile profiles name = some (pyDictMerge base p) ∧
    (∀ k v, lookupA p k = some v →
      lookupA (pyDictMerge base p) k = some v) ∧
    (∀ k, lookupA p k = none →
      lookupA (pyDictMerge base p) k = lookupA base k) ∧
    getMergedProfile demoProfiles "child" =
      some [("a", .num 1), ("b", .num 3), ("inherits", .str "base")] := by
  refine ⟨?_, ?_, ?_, rfl⟩
  · simp [getMergedProfile, hp, hi, hb, hbase]
  · intro k v hk
    rw [lookupA_pyDictMerge, hk]
  · intro k hk
    rw [lookupA_pyDictMerge, hk]

/-- C8 witness: the amended theorem applied to the spec's example
profile table. -/
theorem c8_merged_profile_witness :
    getMergedProfile demoProfiles "child" =
      some (pyDictMerge [("a", .num 1), ("b", .num 2)]
        [("inherits", .str "base"), ("b", .num 3)]) :=
  (c8_merged_profile demoProfiles "child" "base"
    [("inherits", .str "base"), ("b", .num 3)]
    [("a", .num 1), ("b", .num 2)] rfl rfl (by decide) rfl).1

-- ## Claim C9 — unparsable insight timestamps never expire

/-- C9: an insight whose timestamp cannot be parsed as an ISO-8601
datetime (or is not a string) is treated by `_is_expired` as NOT
expired — the `ValueError`/`TypeError` is caught and answered `False`
— so `get_latest_insight` returns such an insight under the default
expired-record filtering, for every `now` and every configured TTL
(stated here for the record that is the key's sole match, where the
descending timestamp sort is the identity). -/
theorem c9_unparsable_never_expires (now ttl : ℚ)
    (insights : List Insight) (key : String) (i : Insight)
    (hf : insights.filter (fun x => x.key == key) = [i])
    (hp : parseTs i.timestamp = none) :
    isExpired now ttl i.timestamp = false ∧
    getLatestInsight now ttl insights key true = some i := by
  have hexp : isExpired now ttl i.timestamp = false := by
    simp [isExpired, hp]
  refine ⟨hexp, ?_⟩
  simp [getLatestInsight, hf, sortStable, insertBy, List.find?, hexp]

/-- C9 witness: a record stamped `"not-a-date"` is returned by
`get_latest_insight` with default filtering at TTL 0 even at an
arbitrarily late `now`. -/
theorem c9_unparsable_never_expires_witness :
    isExpired 1000000000 0 demoInsight.timestamp = false ∧
    getLatestInsight 1000000000 0 [demoInsight] "k" true =
      some demoInsight :=
  c9_unparsable_never_expires 1000000000 0 [demoInsight] "k" demoInsight
    (by rfl) (by rfl)

-- ## Claim C1 — single-flight run lock

/-- C1: a `run` call observed while the flag is WORKING is rejected
immediately — not accepted, no state-flag assignment, context and
counter untouched; an accepted call (flag IDLE at entry) assigns
WORKING on entry and the `finally` block restores IDLE on every exit
path (invalid or unloadable configuration, failed schema validation,
session halt, step failure and normal completion all flow through the
same `finally`), so the call ends IDLE with exactly one IDLE
assignment in its trace. -/
theorem c1_single_flight (env : Env) (st : RunState) (cfg : ConfigInput) :
    (st.state = .working →
      run env st cfg = ⟨.working, st.context, st.counter, false, []⟩) ∧
    (st.state = .idle →
      (run env st cfg).finalState = .idle ∧
      (run env st cfg).accepted = true ∧
      (run env st cfg).stateTrace = [.working, .idle] ∧
      ((run env st cfg).stateTrace.count .idle) = 1) := by
  constructor
  · intro h
    simp [run, h]
  · intro h
    simp [run, h]

/-- C1 witness: a concrete busy orchestrator rejects a second call with
nothing changed, and a concrete idle orchestrator ends the call back at
IDLE. -/
theorem c1_single_flight_witness :
    run envDemo ⟨.working, [("x", .null)], 5⟩ .invalid =
      ⟨.working, [("x", .null)], 5, false, []⟩ ∧
    (run envDemo ⟨.idle, [], 0⟩ .invalid).finalState = .idle := by
  constructor
  · exact (c1_single_flight envDemo ⟨.working, [("x", .null)], 5⟩
      .invalid).1 rfl
  · exact ((c1_single_flight envDemo ⟨.idle, [], 0⟩ .invalid).2 rfl).1

-- ## Claim C5 — context is not reset at run start

/-- C5 counterexample. The claim states the Context is reset at run
start, so "the first executed step of that run observes an empty
Context containing no keys written by any previous run". Running the
one-step `writer.py` workflow leaves `{"k": "v1"}` in the instance's
context; a second `run` on the same instance never clears it, and its
first step's handler — which echoes the context it is handed — observes
`{"k": "v1"}`, not an empty mapping. -/
theorem c5_context_reset_counterexample :
    lookupA (run envDemo
      ⟨(run envDemo ⟨.idle, [], 0⟩ (.dict (cfgOf "writer.py" "k"))).finalState,
       (run envDemo ⟨.idle, [], 0⟩ (.dict (cfgOf "writer.py" "k"))).context,
       (run envDemo ⟨.idle, [], 0⟩ (.dict (cfgOf "writer.py" "k"))).counter⟩
      (.dict (cfgOf "echo.py" "out"))).context "out" =
      some (.obj [("k", .str "v1")]) := by rfl

/-- C5 amended: `run` never resets the Context — the context is created
empty at construction only and carried across runs. An accepted run
starts from the instance's current context: a run with no steps leaves
it exactly as it was, and the first executed step of a run observes
precisely the instance's pre-run context (here via a handler echoing
what it is handed), including anything previous runs wrote. -/
theorem c5_context_not_reset (ctx0 : Ctx) :
    (run envDemo ⟨.idle, ctx0, 0⟩ (.dict ⟨none, []⟩)).context = ctx0 ∧
    lookupA (run envDemo ⟨.idle, ctx0, 0⟩
        (.dict (cfgOf "echo.py" "out"))).context "out" =
      some (.obj ctx0) := by
  have hcs : checkStatus (0 : ℚ) 3600 0 1000 = "STATUS_OK" := by rfl
  constructor
  · simp [run, runBody, runSteps, envDemo, envBase]
  · simp [run, runBody, runSteps, envDemo, envBase, cfgOf, demoModules,
      echoHandler, resolveInputs, hcs, lookupA_ctxSet]

-- ## Claim C6 — handlers receive the live context

/-- C6 counterexample. The claim states a handler receives a read-only
snapshot and "any mutation the handler performs … leaves the
Orchestrator's Context unchanged". The orchestrator passes
`self.context` itself to `module_instance.execute`; a handler that
writes the key `"evil"` through that live handle leaves it in the
orchestrator's context alongside the orchestrator's own merge of the
step output under `"k"` — the claim would demand the context be exactly
`[("k", "out")]`. -/
theorem c6_live_context_counterexample :
    (run (envOf evilHandler) ⟨.idle, [], 0⟩
        (.dict (cfgOf "m.py" "k"))).context =
      [("evil", .str "mutated"), ("k", .str "out")] ∧
    lookupA (run (envOf evilHandler) ⟨.idle, [], 0⟩
        (.dict (cfgOf "m.py" "k"))).context "evil" =
      some (.str "mutated") := ⟨rfl, rfl⟩

/-- C6 amended: the handler is invoked on the orchestrator's live
context dictionary, so the post-step context is exactly the context as
the handler left it, with the step's output merged on top under the
step's `context_key` by the orchestrator after the step completes. -/
theorem c6_live_context (h : Handler) (ctx0 : Ctx) (out : JVal)
    (ctx' : Ctx) (hh : h .null ctx0 = (.ok out, ctx')) :
    (run (envOf h) ⟨.idle, ctx0, 0⟩ (.dict (cfgOf "m.py" "k"))).context =
      ctxSet ctx' "k" out := by
  have hcs : checkStatus (0 : ℚ) 3600 0 1000 = "STATUS_OK" := by rfl
  simp [run, runBody, runSteps, envOf, envBase, cfgOf, resolveInputs,
    hcs, hh]

/-- C6 witness: the amended theorem at the mutating handler — the
handler's write survives into the orchestrator's context. -/
theorem c6_live_context_witness :
    (run (envOf evilHandler) ⟨.idle, [], 0⟩
        (.dict (cfgOf "m.py" "k"))).context =
      ctxSet [("evil", .str "mutated")] "k" (.str "out") :=
  c6_live_context evilHandler [] (.str "out") [("evil", .str "mutated")] rfl

-- ## Claim C10 — strict session limits, N+1 completed steps

/-- The session-budget trace of a run of `M` trivially succeeding
steps: with elapsed time within the timeout and `max_updates = N`, the
update counter after the loop is `min (c + M) (N + 1)` from a start of
`c ≤ N`, because `check_status` trips only on strict exceedance. -/
theorem runSteps_replicate (e t : ℚ) (N : ℕ) (he : e ≤ t) :
    ∀ (M c : ℕ) (ctx : Ctx),
      runSteps (envTriv e t N) (List.replicate M stepOk) ctx c =
        (ctx, if N < c then c
              else if c + M ≤ N + 1 then c + M else N + 1) := by
  have hel : (envTriv e t N).elapsed = e := rfl
  have htm : (envTriv e t N).timeout = t := rfl
  have hmu : (envTriv e t N).maxUpdates = (N : ℤ) := rfl
  have hmod : (envTriv e t N).modules "ok.py" = some okHandler := rfl
  intro M
  induction M with
  | zero =>
    intro c ctx
    simp only [List.replicate, runSteps]
    split_ifs with h1 h2
    · rfl
    · simp
    · omega
  | succ M ih =>
    intro c ctx
    rw [List.replicate_succ]
    by_cases hc : N < c
    · have hms : checkStatus e t c (N : ℤ) = "MAX_UPDATES_REACHED" := by
        have h1 : ¬ e > t := not_lt.mpr he
        have h2 : (c : ℤ) > (N : ℤ) := by exact_mod_cast hc
        simp [checkStatus, h1, h2]
      simp only [runSteps, hel, htm, hmu, hms]
      simp [hc]
    · have hok : checkStatus e t c (N : ℤ) = "STATUS_OK" := by
        have h1 : ¬ e > t := not_lt.mpr he
        have h2 : ¬ (c : ℤ) > (N : ℤ) := by
          simp only [gt_iff_lt, not_lt]
          exact_mod_cast Nat.not_lt.mp hc
        simp [checkStatus, h1, h2]
      have hrs : stepOk.rulesetName = none := rfl
      have hmodname : stepOk.module = "ok.py" := rfl
      have hinp : stepOk.inputs = .null := rfl
      have hcon : stepOk.contract = none := rfl
      have hck : stepOk.contextKey = none := rfl
      simp only [runSteps, hel, htm, hmu, hok, hrs, hmodname, hinp, hcon,
        hck, hmod, resolveInputs, okHandler]
      simp only [ne_eq, not_true_eq_false, ite_false, Bool.false_eq_true,
        if_false]
      rw [ih (c + 1) ctx]
      simp only [Prod.mk.injEq, true_and]
      split_ifs <;> omega

/-- C10: `check_status` trips only on strict exceedance — it answers
`STATUS_OK` exactly when elapsed ≤ timeout and counter ≤ max_updates,
`TIMEOUT_REACHED` exactly on elapsed > timeout, `MAX_UPDATES_REACHED`
exactly on counter > max_updates within the timeout — and consequently
a run of `M` trivially succeeding steps under `max_updates = N`
completes `min M (N + 1)` of them: with `M ≥ N + 2`, exactly `N + 1`
steps complete (each logging an update) before the guard halts the
run. -/
theorem c10_session_limits (e t : ℚ) (c : ℕ) (m : ℤ) (N M : ℕ)
    (he : e ≤ t) :
    (checkStatus e t c m = "STATUS_OK" ↔ e ≤ t ∧ (c : ℤ) ≤ m) ∧
    (checkStatus e t c m = "TIMEOUT_REACHED" ↔ e > t) ∧
    (checkStatus e t c m = "MAX_UPDATES_REACHED" ↔
      e ≤ t ∧ (c : ℤ) > m) ∧
    (run (envTriv e t N) ⟨.idle, [], 0⟩ (.dict (cfgTriv M))).counter =
      min M (N + 1) := by
  refine ⟨?_, ?_, ?_, ?_⟩
  · unfold checkStatus
    split_ifs with h1 h2
    · constructor
      · intro hx; exact absurd hx (by decide)
      · rintro ⟨hx, -⟩; linarith
    · constructor
      · intro hx; exact absurd hx (by decide)
      · rintro ⟨-, hx⟩; omega
    · exact ⟨fun _ => ⟨not_lt.mp h1, not_lt.mp h2⟩, fun _ => rfl⟩
  · unfold checkStatus
    split_ifs with h1 h2
    · exact ⟨fun _ => h1, fun _ => rfl⟩
    · constructor
      · intro hx; exact absurd hx (by decide)
      · intro hx; exact absurd hx h1
    · constructor
      · intro hx; exact absurd hx (by decide)
      · intro hx; exact absurd hx h1
  · unfold checkStatus
    split_ifs with h1 h2
    · constructor
      · intro hx; exact absurd hx (by decide)
      · rintro ⟨hx, -⟩; linarith
    · exact ⟨fun _ => ⟨not_lt.mp h1, h2⟩, fun _ => rfl⟩
    · constructor
      · intro hx; exact absurd hx (by decide)
      · rintro ⟨-, hx⟩; exact absurd hx h2
  · have hrun := runSteps_replicate e t N he M 0 []
    have hsch : (envTriv e t N).schemaCheck = none := rfl
    have hsteps : (cfgTriv M).steps = List.replicate M stepOk := rfl
    simp only [run, runBody, hsch, hsteps]
    rw [if_neg (by decide)]
    rw [hrun]
    simp only [Nat.min_def]
    split_ifs <;> omega

/-- C10 witness: `max_updates = 2` lets a 5-step run complete exactly
3 steps. -/
theorem c10_session_limits_witness :
    (run (envTriv 0 3600 2) ⟨.idle, [], 0⟩ (.dict (cfgTriv 5))).counter =
      3 :=
  ((c10_session_limits 0 3600 0 1000 2 5 (by norm_num)).2.2.2).trans rfl

-- ## Claim C2 — monotonic, append-only versioning

/-- `digitChar` always produces a decimal digit character. -/
theorem digitChar_isDigit (d : ℕ) : (digitChar d).isDigit = true := by
  rcases d with _ | _ | _ | _ | _ | _ | _ | _ | _ | d <;> rfl

/-- `digitChar` round-trips through the character code for `d < 10`. -/
theorem digitChar_toNat (d : ℕ) (h : d < 10) :
    (digitChar d).toNat - 48 = d := by
  rcases d with _ | _ | _ | _ | _ | _ | _ | _ | _ | _ | d
  · rfl
  · rfl
  · rfl
  · rfl
  · rfl
  · rfl
  · rfl
  · rfl
  · rfl
  · rfl
  · omega

/-- The decimal print of a natural number is never empty. -/
theorem natDigits_ne_nil (n : ℕ) : natDigits n ≠ [] := by
  unfold natDigits
  by_cases h : n = 0
  · simp [h]
  · simp [h, Nat.digits_ne_nil_iff_ne_zero.mpr h]

/-- Every character of the decimal print is a digit. -/
theorem natDigits_all_digits (n : ℕ) :
    ∀ c ∈ natDigits n, c.isDigit = true := by
  unfold natDigits
  by_cases h : n = 0
  · simp [h]
  · simp only [h, ite_false, List.mem_map, List.mem_reverse]
    rintro c ⟨d, -, rfl⟩
    exact digitChar_isDigit d

/-- `int(...)` of a printed digit list recovers `Nat.ofDigits`. -/
theorem natOfDigits_reverse_map (l : List ℕ) (hl : ∀ d ∈ l, d < 10) :
    natOfDigits ((l.reverse.map digitChar)) = Nat.ofDigits 10 l := by
  induction l with
  | nil => rfl
  | cons d ds ih =>
    have hd : d < 10 := hl d (by simp)
    have ih' := ih (fun x hx => hl x (by simp [hx]))
    simp only [List.reverse_cons, List.map_append, List.map_cons,
      List.map_nil]
    unfold natOfDigits
    rw [List.foldl_append]
    unfold natOfDigits at ih'
    simp only [List.foldl_cons, List.foldl_nil, ih', digitChar_toNat d hd,
      Nat.ofDigits_cons]
    ring

/-- Python `int(str(n)) == n`. -/
theorem natOfDigits_natDigits (n : ℕ) : natOfDigits (natDigits n) = n := by
  unfold natDigits
  by_cases h : n = 0
  · simp [h]; rfl
  · simp only [h, ite_false]
    rw [natOfDigits_reverse_map _
      (fun d hd => Nat.digits_lt_base (by norm_num) hd)]
    exact Nat.ofDigits_digits 10 n

/-- The greedy `(\d+)` capture splits a digit run from a non-digit
continuation. -/
theorem takeDigits_append (ds tl : List Char)
    (hds : ∀ c ∈ ds, c.isDigit = true)
    (htl : ∀ c ∈ tl.take 1, c.isDigit = false) :
    takeDigits (ds ++ tl) = (ds, tl) := by
  induction ds with
  | nil =>
    simp only [List.nil_append]
    cases tl with
    | nil => rfl
    | cons c rest =>
      have hc : c.isDigit = false := htl c (by simp)
      simp [takeDigits, hc]
  | cons d ds ih =>
    have hd : d.isDigit = true := hds d (by simp)
    have ih' := ih (fun c hc => hds c (by simp [hc]))
    simp [takeDigits, hd, ih']

/-- The regex scan over the generated filename's tail finds exactly the
printed version number: the region after the base name is
`_default_v<digits>_<sha><ext>`, whose leftmost `_v`-plus-digit
occurrence is the one the generator wrote. -/
theorem scanVersion_region (ext sha : List Char) (n : ℕ) :
    scanVersion ext
      ('_' :: 'd' :: 'e' :: 'f' :: 'a' :: 'u' :: 'l' :: 't' :: '_' :: 'v' ::
        (natDigits n ++ '_' :: (sha ++ ext))) = some n := by
  obtain ⟨d, ds, hds⟩ : ∃ d ds, natDigits n = d :: ds := by
    cases hnd : natDigits n with
    | nil => exact absurd hnd (natDigits_ne_nil n)
    | cons d ds => exact ⟨d, ds, rfl⟩
  have hsplit : takeDigits (natDigits n ++ '_' :: (sha ++ ext)) =
      (d :: ds, '_' :: (sha ++ ext)) := by
    rw [← hds]
    exact takeDigits_append _ _ (natDigits_all_digits n)
      (by intro c hc; simp at hc; subst hc; rfl)
  have hsuff : ext.isSuffixOf ('_' :: (sha ++ ext)) = true := by
    rw [List.isSuffixOf_iff_suffix]
    have : '_' :: (sha ++ ext) = ('_' :: sha) ++ ext := by simp
    rw [this]
    exact List.suffix_append _ _
  have hstep : scanVersion ext
      ('_' :: 'd' :: 'e' :: 'f' :: 'a' :: 'u' :: 'l' :: 't' :: '_' :: 'v' ::
        (natDigits n ++ '_' :: (sha ++ ext))) =
      scanVersion ext
      ('_' :: 'v' :: (natDigits n ++ '_' :: (sha ++ ext))) := rfl
  rw [hstep]
  have hmain : scanVersion ext
      ('_' :: 'v' :: (natDigits n ++ '_' :: (sha ++ ext))) =
      (match takeDigits (natDigits n ++ '_' :: (sha ++ ext)) with
       | (d :: ds, tl) =>
         if ext.isSuffixOf tl then some (natOfDigits (d :: ds))
         else scanVersion ext
           ('v' :: (natDigits n ++ '_' :: (sha ++ ext)))
       | ([], _) => scanVersion ext
           ('v' :: (natDigits n ++ '_' :: (sha ++ ext)))) := rfl
  rw [hmain, hsplit]
  simp only [hsuff, if_pos]
  rw [← hds, natOfDigits_natDigits]

/-- String append at character level. -/
theorem toList_append (a b : String) :
    (a ++ b).toList = a.toList ++ b.toList := by
  cases a; cases b; rfl

/-- A list `isPrefixOf` any extension of itself. -/
theorem isPrefixOf_append_self (l rest : List Char) :
    l.isPrefixOf (l ++ rest) = true := by
  induction l with
  | nil => simp [List.isPrefixOf]
  | cons c l ih => simp [List.isPrefixOf, ih]

/-- The directory-scan regex of `_get_next_version` recovers exactly
the version number that `save_new_version` printed into a generated
filename, for every base name, extension, and hash fragment. -/
theorem extractVersion_gen (baseName ext sha : String) (n : ℕ) :
    extractVersion baseName ext (genFilename baseName ext sha n) =
      some n := by
  have htl : (genFilename baseName ext sha n).toList =
      baseName.toList ++
        ('_' :: 'd' :: 'e' :: 'f' :: 'a' :: 'u' :: 'l' :: 't' :: '_' :: 'v' ::
          (natDigits n ++ '_' :: (sha.toList ++ ext.toList))) := by
    unfold genFilename
    rw [toList_append, toList_append, toList_append, toList_append,
      toList_append]
    simp
  unfold extractVersion
  rw [htl, isPrefixOf_append_self]
  simp only [if_pos]
  rw [List.drop_left]
  exact scanVersion_region ext.toList sha.toList n

/-- One more file in the directory folds into the version maximum. -/
theorem maxVersion_append_one (baseName ext : String)
    (files : List String) (f : String) :
    maxVersion baseName ext (files ++ [f]) =
      match extractVersion baseName ext f with
      | some v => max (maxVersion baseName ext files) v
      | none => maxVersion baseName ext files := by
  unfold maxVersion
  rw [List.foldl_append]
  cases h : extractVersion baseName ext f <;> simp [h]

/-- The behaviour of `N` consecutive saves from any directory whose
version maximum is `k`: the handed-out versions are `k+1, …, k+N` and
the directory only grows by the generated filenames. -/
theorem saveSeq_spec (baseName ext : String) :
    ∀ (shas files : List String) (k : ℕ),
      maxVersion baseName ext files = k →
      saveSeq baseName ext shas files =
        (List.range' (k + 1) shas.length,
         files ++ genFrom baseName ext (k + 1) shas) := by
  intro shas
  induction shas with
  | nil =>
    intro files k hk
    simp [saveSeq, genFrom]
  | cons sha rest ih =>
    intro files k hk
    have hnext : getNextVersion baseName ext files = k + 1 := by
      unfold getNextVersion
      rw [hk]
    have hmax' : maxVersion baseName ext
        (files ++ [genFilename baseName ext sha (k + 1)]) = k + 1 := by
      rw [maxVersion_append_one, extractVersion_gen, hk]
      simp
    simp only [saveSeq, saveNewVersion, hnext]
    rw [ih _ _ hmax']
    simp only [genFrom, List.length_cons, List.range']
    simp [List.append_assoc]

/-- The versions encoded in the filenames `genFrom` produces. -/
theorem genFrom_versions (baseName ext : String) :
    ∀ (shas : List String) (v : ℕ),
      (genFrom baseName ext v shas).map (extractVersion baseName ext) =
        (List.range' v shas.length).map some := by
  intro shas
  induction shas with
  | nil => intro v; rfl
  | cons sha rest ih =>
    intro v
    simp only [genFrom, List.map_cons, extractVersion_gen,
      List.length_cons, List.range', ih (v + 1)]

/-- Distinctness of the generated filenames: their encoded versions are
pairwise distinct. -/
theorem genFrom_nodup (baseName ext : String) (shas : List String)
    (v : ℕ) : (genFrom baseName ext v shas).Nodup := by
  have hmap : ((genFrom baseName ext v shas).map
      (extractVersion baseName ext)).Nodup := by
    rw [genFrom_versions]
    exact (List.nodup_range' _ _).map (Option.some_injective ℕ)
  exact hmap.of_map _

/-- C2: starting from an empty versions directory, N consecutive
`save_new_version` calls for one base path hand out exactly the
version numbers 1, 2, …, N in order (strictly increasing); the
resulting directory holds exactly the N generated artifacts, whose
names are pairwise distinct (so no save ever overwrites an earlier
artifact); and every save sequence only ever appends to the directory
(no previously saved artifact is deleted). The statement quantifies
over arbitrary `sha12` fragments — including a list repeating one and
the same hash, i.e. byte-identical payloads — so an identical payload
still yields a brand-new version (no content deduplication). -/
theorem c2_monotonic_versioning (baseName ext : String)
    (shas : List String) :
    (saveSeq baseName ext shas []).1 = List.range' 1 shas.length ∧
    (saveSeq baseName ext shas []).2 = genFrom baseName ext 1 shas ∧
    (saveSeq baseName ext shas []).2.Nodup ∧
    (∀ (shas' files : List String), ∃ rest,
        (saveSeq baseName ext shas' files).2 = files ++ rest) := by
  have h0 : maxVersion baseName ext ([] : List String) = 0 := rfl
  have hs := saveSeq_spec baseName ext shas [] 0 h0
  refine ⟨?_, ?_, ?_, ?_⟩
  · rw [hs]
  · rw [hs]
    simp
  · rw [hs]
    simp only [List.nil_append]
    exact genFrom_nodup baseName ext shas 1
  · intro shas' files
    exact ⟨genFrom baseName ext (maxVersion baseName ext files + 1) shas',
      congrArg Prod.snd
        (saveSeq_spec baseName ext shas' files _ rfl)⟩

end Json2Proj
